import Mathlib

/-!
Verification of the quiz session engine of the `quizai` repository
(`src/quiz.js`) and its history store (`src/resultsManager.js`).

The JavaScript source is embedded shallowly:

* Question records, answer records and session results become Lean
  structures mirroring the object shapes built by `quiz.js`.
* The answer validators (`validateMultipleChoice`, `validateSingleChoice`,
  `validateFreeForm`) become pure Lean functions with the same names.
* The asynchronous session driver (`Quiz.start` / `Quiz.askQuestion`)
  becomes a deterministic interpreter over an explicit interaction
  schedule.  Every `await inquirer.prompt(...)` in the source is an
  await point of the interpreter; the user's responses are supplied by
  the schedule.  The `setTimeout` deadline callback of `Quiz.start` is
  modelled by a schedule field naming the await point at which the
  callback runs (in Node it can only run while the engine is suspended
  at a prompt); the callback then executes `finishQuiz` exactly as in
  the source.  Wall-clock readings (`Date.now()`) are abstracted to a
  logical clock that ticks at each await and each state change, since
  no claim constrains concrete times.
* JavaScript number arithmetic is modelled exactly (`ℚ` for the single
  floating-point expression `score / total * 100`, `Int`/`Nat`
  elsewhere); the values occurring here are far below any double
  rounding threshold.
* Console output (chalk styling, banners, feedback text) is ignored
  except where a claim depends on an observable event: question
  presentation, the timer firing, a `saveResult` invocation and the
  `Quiz error:` report are recorded in an event trace.
-/

/-- An entry of a question's `options` array in `quiz.js`: either a plain
string or a `{text, value}` object (both fields are strings in the
question bank; a non-string `value` could never satisfy the `===`
comparisons with a string `correctAnswers` entry). -/
inductive QOption
  | str (s : String)
  | obj (text value : String)
deriving DecidableEq

/-- An entry of a question's `correctAnswers` array: a numeric index or a
string naming an option (`typeof answer === 'number'` discriminates in
the source). -/
inductive CAns
  | num (n : Int)
  | val (s : String)
deriving DecidableEq

/-- The `type` field of a question.  `unsupported` stands for any string
other than the three recognised ones; `Quiz.askQuestion` throws on it. -/
inductive QType
  | singleChoice
  | multipleChoice
  | freeForm
  | unsupported (name : String)
deriving DecidableEq

/-- A question record as consumed by `Quiz.askQuestion`.  `correctAnswers`
is `Option` because free-form questions omit it (the record stores
`question.correctAnswers || question.sampleAnswers`).  Absent `keywords`
and absent `sampleAnswers` behave exactly like empty arrays in the code
paths modelled here, so they are plain lists. -/
structure Question where
  id : String
  question : String
  type : QType
  options : List QOption
  correctAnswers : Option (List CAns)
  sampleAnswers : List String
  keywords : List String
deriving DecidableEq

/-- The `correctAnswers` array of a choice-type question.  The data-model
invariant (enforced by the question loader) guarantees the field is
present on every question whose validator is invoked; on absent data the
JavaScript would throw, a corner never exercised by the engine. -/
def questionCorrectAnswers (q : Question) : List CAns :=
  q.correctAnswers.getD []

/-- The `userAnswer` field of an answer record: list of indices for
multiple-choice, one index for single-choice, trimmed text for
free-form. -/
inductive UAnswer
  | multi (sel : List Int)
  | single (idx : Int)
  | text (s : String)
deriving DecidableEq

/-- The denormalized `correctAnswers` field of an answer record:
`question.correctAnswers || question.sampleAnswers` in the source. -/
inductive ShownAnswers
  | fromCorrect (l : List CAns)
  | fromSamples (l : List String)
deriving DecidableEq

/-- The value of `question.correctAnswers || question.sampleAnswers`. -/
def recordShownAnswers (q : Question) : ShownAnswers :=
  match q.correctAnswers with
  | some l => .fromCorrect l
  | none => .fromSamples q.sampleAnswers

/-- One element of `this.answers`, as pushed by `Quiz.askQuestion`. -/
structure AnswerRecord where
  questionId : String
  question : String
  type : QType
  userAnswer : UAnswer
  isCorrect : Bool
  correctAnswers : ShownAnswers
  timestamp : Nat
deriving DecidableEq

/-- The result object assembled by `Quiz.finishQuiz` and handed to
`resultsManager.saveResult`. -/
structure SessionResult where
  timestamp : Nat
  totalQuestions : Nat
  correctAnswers : Nat
  percentage : Int
  duration : Nat
  answers : List AnswerRecord
deriving DecidableEq

/-- JavaScript `Array.prototype.findIndex`: index of the first element
satisfying the predicate, `-1` when none does. -/
def jsFindIndex {α : Type} (p : α → Bool) (l : List α) : Int :=
  match l.findIdx? p with
  | some i => (i : Int)
  | none => -1

/-- The option-matching predicate used (twice, inline) by the validators:
`(typeof opt === 'string' && opt === answer) || (typeof opt === 'object'
&& (opt.text === answer || opt.value === answer))`. -/
def optMatches (answer : String) (opt : QOption) : Bool :=
  match opt with
  | .str s => s == answer
  | .obj text value => text == answer || value == answer

/-- Resolution of one `correctAnswers` entry to an option index, shared
by both choice validators in the source: a numeric entry is used
directly, otherwise `options.findIndex` with `optMatches`. -/
def resolveAnswer (options : List QOption) (c : CAns) : Int :=
  match c with
  | .num n => n
  | .val s => jsFindIndex (optMatches s) options

/-- Insertion step of the ascending sort. -/
def insertAsc (x : Int) : List Int → List Int
  | [] => [x]
  | y :: ys => if x ≤ y then x :: y :: ys else y :: insertAsc x ys

/-- JavaScript `array.sort((a, b) => a - b)`: ascending numeric sort.
(Insertion sort produces the same sorted sequence; on integers equal
elements are indistinguishable, so stability is irrelevant.) -/
def sortAsc (l : List Int) : List Int :=
  l.foldr insertAsc []

/-- `Quiz.validateMultipleChoice`: resolve every `correctAnswers` entry,
sort ascending, and compare with the (already sorted) user selection;
`JSON.stringify` equality of two integer arrays is exact list
equality. -/
def validateMultipleChoice (q : Question) (userAnswer : List Int) : Bool :=
  let correct := sortAsc ((questionCorrectAnswers q).map (resolveAnswer q.options))
  userAnswer == correct

/-- `Quiz.validateSingleChoice`: `correctAnswers[0]` compared directly if
numeric, otherwise compared against its `findIndex` resolution.  The
`[]` branch (an absent entry) is unreachable under the single-choice
data invariant of exactly one entry. -/
def validateSingleChoice (q : Question) (userAnswer : Int) : Bool :=
  match (questionCorrectAnswers q).head? with
  | none => false
  | some (.num n) => userAnswer == n
  | some (.val s) => userAnswer == jsFindIndex (optMatches s) q.options

/-- The three choices offered by the self-assessment prompt of
`Quiz.validateFreeForm` (`true`, `false`, `'partial'` in the source). -/
inductive SelfAssess
  | correct
  | incorrect
  | partiallyCorrect
deriving DecidableEq

/-- ASCII case folding of one character, as `String.prototype.toLowerCase`
acts on the characters appearing in the question bank. -/
def jsLowerChar (c : Char) : Char :=
  if 'A' ≤ c ∧ c ≤ 'Z' then Char.ofNat (c.toNat + 32) else c

/-- JavaScript `string.toLowerCase` over the modelled character range. -/
def jsToLower (s : String) : String :=
  ⟨s.data.map jsLowerChar⟩

/-- Containment of `needle` as a contiguous run of `hay`. -/
def containsSeq (hay needle : List Char) : Bool :=
  match hay with
  | [] => needle.isEmpty
  | _ :: t => needle.isPrefixOf hay || containsSeq t needle

/-- JavaScript `hay.includes(needle)`. -/
def jsIncludes (hay needle : String) : Bool :=
  containsSeq hay.data needle.data

/-- The keyword check of `Quiz.validateFreeForm`: with a non-empty
`keywords` list, report whether any keyword occurs (case-insensitively)
in the user's answer; the source only prints a hint when this holds. -/
def freeFormHintShown (q : Question) (userAnswer : String) : Bool :=
  !q.keywords.isEmpty &&
    q.keywords.any fun k => jsIncludes (jsToLower userAnswer) (jsToLower k)

/-- The observable outcome of `Quiz.validateFreeForm`: whether the
keyword hint was printed, and the correctness value returned. -/
structure FreeFormOutcome where
  hintShown : Bool
  isCorrect : Bool
deriving DecidableEq

/-- `Quiz.validateFreeForm`: the keyword containment check only drives
the hint message; the returned correctness is
`selfAssessment === true || selfAssessment === 'partial'`. -/
def validateFreeForm (q : Question) (userAnswer : String)
    (selfAssessment : SelfAssess) : FreeFormOutcome :=
  { hintShown := freeFormHintShown q userAnswer
    isCorrect :=
      selfAssessment == SelfAssess.correct ||
        selfAssessment == SelfAssess.partiallyCorrect }

/-- JavaScript `string.trim` over the modelled character range. -/
def jsTrim (s : String) : String :=
  ⟨((s.data.dropWhile Char.isWhitespace).reverse.dropWhile
      Char.isWhitespace).reverse⟩

/-- The value returned by `Quiz.askMultipleChoice` once the prompt
accepts: the selection sorted ascending.  An empty selection is rejected
by the prompt's `validate` and re-asked, so a schedule supplying one is
inadequate (`none`). -/
def askMultipleChoiceSel (sel : List Int) : Option (List Int) :=
  if sel.isEmpty then none else some (sortAsc sel)

/-- The value returned by `Quiz.askFreeForm` once the prompt accepts: the
trimmed answer.  A blank answer is rejected by the prompt's `validate`
and re-asked, so a schedule supplying one is inadequate (`none`). -/
def askFreeFormAns (ans : String) : Option String :=
  if jsTrim ans == "" then none else some (jsTrim ans)

/-- JavaScript `Math.round` on the values produced here (non-negative):
round half up. -/
def jsRound (x : ℚ) : Int :=
  ⌊x + 1 / 2⌋

/-- The user input consumed by one attempt at a question: one shape per
prompt built by `Quiz.askQuestion`'s dispatch. -/
inductive RawInput
  | multi (sel : List Int)
  | single (idx : Int)
  | free (ans : String) (sa : SelfAssess)
deriving DecidableEq

/-- One scripted attempt: the prompt response(s) for the question, plus
the response to the "Would you like to try again?" prompt should it be
asked after this attempt. -/
structure Attempt where
  input : RawInput
  retry : Bool
deriving DecidableEq

/-- Observable engine events: the per-iteration question header of
`Quiz.start`'s loop, the deadline callback running, a
`resultsManager.saveResult` invocation (always from inside
`Quiz.finishQuiz`), and the `Quiz error:` report of the catch block. -/
inductive Event
  | presented (qIdx : Nat)
  | timerFired
  | saved (r : SessionResult)
  | errorShown (msg : String)
deriving DecidableEq

/-- The session configuration held by the `Quiz` instance:
`this.questions`, `this.timeLimit`, `this.allowRetry`. -/
structure Ctx where
  questions : List Question
  timeLimit : Nat
  allowRetry : Bool

/-- The interaction schedule of one run: the confirmation response, the
attempts supplied per question, and the await point (0-based index over
all prompt suspensions after the confirmation) during which the armed
deadline callback runs; `none` means the deadline is never reached
before the run ends. -/
structure Schedule where
  confirmStart : Bool
  attempts : List (List Attempt)
  fireAt : Option Nat

/-- The mutable state of a running `Quiz` instance, plus the logical
clock, the await counter, whether the timer callback already ran, and
the accumulated event trace. -/
structure EngState where
  answers : List AnswerRecord
  score : Nat
  clock : Nat
  awaits : Nat
  fired : Bool
  events : List Event

/-- `this.answers = []`, `this.score = 0`, `startTime = Date.now()`
(time zero of the logical clock). -/
def initState : EngState :=
  { answers := [], score := 0, clock := 0, awaits := 0, fired := false,
    events := [] }

/-- `Quiz.finishQuiz`: record `endTime`, assemble the session result from
the current state, and invoke `saveResult` on it (the `saved` event).
Returns the updated state together with the result saved. -/
def finishQuiz (ctx : Ctx) (st : EngState) : EngState × SessionResult :=
  let st := { st with clock := st.clock + 1 }
  let r : SessionResult :=
    { timestamp := st.clock
      totalQuestions := ctx.questions.length
      correctAnswers := st.score
      percentage := jsRound ((st.score : ℚ) / (ctx.questions.length : ℚ) * 100)
      duration := st.clock
      answers := st.answers }
  ({ st with events := st.events ++ [.saved r] }, r)

/-- One await point: while the engine is suspended at a prompt the armed
deadline callback may run; it does so exactly once, at the scheduled
await index, printing the time-limit message and calling
`Quiz.finishQuiz` (it does not touch the loop state). -/
def awaitPoint (ctx : Ctx) (sched : Schedule) (st : EngState) : EngState :=
  let st :=
    if ctx.timeLimit > 0 && !st.fired && sched.fireAt == some st.awaits then
      let st := { st with fired := true, events := st.events ++ [.timerFired] }
      (finishQuiz ctx st).1
    else st
  { st with awaits := st.awaits + 1, clock := st.clock + 1 }

/-- The prompt suspensions of one attempt before an answer value is
available: one prompt for the choice types, the input prompt plus the
self-assessment prompt for free-form. -/
def promptAwaits (ctx : Ctx) (sched : Schedule) (q : Question)
    (st : EngState) : EngState :=
  match q.type with
  | .freeForm => awaitPoint ctx sched (awaitPoint ctx sched st)
  | _ => awaitPoint ctx sched st

/-- The dispatch of `Quiz.askQuestion`'s `switch` on `question.type`
applied to the scripted input: the collected `userAnswer` and its
validation.  `none` marks a schedule whose input does not fit the
prompt (wrong shape, empty selection, blank answer) — such input is
re-asked by the real prompts, so it never reaches this point. -/
def collect (q : Question) (inp : RawInput) : Option (UAnswer × Bool) :=
  match q.type, inp with
  | .multipleChoice, .multi sel =>
      match askMultipleChoiceSel sel with
      | some sorted => some (.multi sorted, validateMultipleChoice q sorted)
      | none => none
  | .singleChoice, .single idx =>
      some (.single idx, validateSingleChoice q idx)
  | .freeForm, .free ans sa =>
      match askFreeFormAns ans with
      | some t => some (.text t, (validateFreeForm q t sa).isCorrect)
      | none => none
  | _, _ => none

/-- Result of one iteration of `Quiz.askQuestion`'s `do`-loop. -/
inductive StepRes
  | cont (st : EngState)
  | done (st : EngState)
  | fail (st : EngState) (msg : String)
  | stuck

/-- The answer record pushed by `Quiz.askQuestion` for one attempt. -/
def mkRecord (q : Question) (ua : UAnswer) (ok : Bool) (now : Nat) :
    AnswerRecord :=
  { questionId := q.id
    question := q.question
    type := q.type
    userAnswer := ua
    isCorrect := ok
    correctAnswers := recordShownAnswers q
    timestamp := now }

/-- The tail of one `Quiz.askQuestion` loop iteration, after the answer
has been collected and validated: push the answer record, then branch
exactly as the source does — correct increments the score and breaks;
incorrect without retry breaks; incorrect with retry asks "try again?",
a decline breaks, an acceptance pops the just-pushed record and
loops. -/
def attemptBody (ctx : Ctx) (sched : Schedule) (q : Question) (a : Attempt)
    (st1 : EngState) (ua : UAnswer) (ok : Bool) : StepRes :=
  let ar := mkRecord q ua ok st1.clock
  let st2 :=
    { st1 with answers := st1.answers ++ [ar], clock := st1.clock + 1 }
  if ok then
    .done { st2 with score := st2.score + 1 }
  else if ctx.allowRetry then
    let st3 := awaitPoint ctx sched st2
    if a.retry then .cont { st3 with answers := st3.answers.dropLast }
    else .done st3
  else
    .done st2

/-- One iteration of `Quiz.askQuestion`'s `do`-loop: dispatch (throwing
on an unsupported type before any prompt), await the prompt(s), collect
and validate the answer, and run the loop body. -/
def attemptStep (ctx : Ctx) (sched : Schedule) (q : Question) (a : Attempt)
    (st : EngState) : StepRes :=
  match q.type with
  | .unsupported name => .fail st ("Unsupported question type: " ++ name)
  | _ =>
    let st1 := promptAwaits ctx sched q st
    match collect q a.input with
    | none => .stuck
    | some (ua, ok) => attemptBody ctx sched q a st1 ua ok

/-- Result of a whole `Quiz.askQuestion` call (or of the question loop of
`Quiz.start`). -/
inductive QRes
  | done (st : EngState)
  | fail (st : EngState) (msg : String)
  | stuck

/-- `Quiz.askQuestion`: run the `do`-loop over the scripted attempts.
A schedule that runs out of attempts while the loop would re-ask is
inadequate (`stuck`). -/
def runQuestion (ctx : Ctx) (sched : Schedule) (q : Question) :
    List Attempt → EngState → QRes
  | [], _ => .stuck
  | a :: rest, st =>
    match attemptStep ctx sched q a st with
    | .done st' => .done st'
    | .fail st' m => .fail st' m
    | .stuck => .stuck
    | .cont st' => runQuestion ctx sched q rest st'

/-- The question loop of `Quiz.start`: print the per-question header
(the `presented` event) and run `Quiz.askQuestion` for each question in
order; a thrown error propagates out of the loop. -/
def runQuestions (ctx : Ctx) (sched : Schedule) :
    List Question → List (List Attempt) → Nat → EngState → QRes
  | [], _, _, st => .done st
  | q :: qs, scripts, i, st =>
    let st := { st with events := st.events ++ [.presented i] }
    match scripts with
    | [] => .stuck
    | s :: ss =>
      match runQuestion ctx sched q s st with
      | .done st' => runQuestions ctx sched qs ss (i + 1) st'
      | .fail st' m => .fail st' m
      | .stuck => .stuck

/-- The observable outcome of `Quiz.start`: the confirmation was
declined, or the session completed (the final `finishQuiz` result), or
the catch block reported an error. -/
inductive Outcome
  | cancelled
  | completed (r : SessionResult)
  | errored (msg : String)

/-- A finished run: the full event trace, the outcome, and the final
engine state. -/
structure RunResult where
  events : List Event
  outcome : Outcome
  final : EngState

/-- `Quiz.start`: confirmation prompt (declining cancels with no side
effects), then the question loop with the armed deadline timer; normal
completion disarms the timer and runs `finishQuiz`; a thrown error is
caught, the timer is disarmed, and `Quiz error:` is printed — the
error is not rethrown, finalization does not run on this path.
`none` marks an inadequate schedule (a model artifact only). -/
def start (ctx : Ctx) (sched : Schedule) : Option RunResult :=
  if !sched.confirmStart then
    some { events := [], outcome := .cancelled, final := initState }
  else
    match runQuestions ctx sched ctx.questions sched.attempts 0 initState with
    | .done st =>
        let (st', r) := finishQuiz ctx st
        some { events := st'.events, outcome := .completed r, final := st' }
    | .fail st m =>
        let st' := { st with events := st.events ++ [.errorShown m] }
        some { events := st'.events, outcome := .errored m, final := st' }
    | .stuck => none

/-- The results passed to `saveResult` during a trace, in order. -/
def savedResults (evts : List Event) : List SessionResult :=
  evts.filterMap fun e =>
    match e with
    | .saved r => some r
    | _ => none

/-- The number of `saveResult` invocations in a trace. -/
def countSaved (evts : List Event) : Nat :=
  (savedResults evts).length

/-- The properties every session result handed to `saveResult` enjoys:
its `totalQuestions` is the configured question count, its
`correctAnswers` counts exactly the correct records among its `answers`,
and its `percentage` is the rounded ratio of those two. -/
def SavedOk (ctx : Ctx) (r : SessionResult) : Prop :=
  r.totalQuestions = ctx.questions.length ∧
  r.correctAnswers = (r.answers.filter fun a => a.isCorrect).length ∧
  r.percentage =
    jsRound ((r.correctAnswers : ℚ) / (ctx.questions.length : ℚ) * 100)

/-- The running invariant of the engine state: the score counts exactly
the correct records in the answers list, and every result saved so far
satisfies `SavedOk`. -/
def StInv (ctx : Ctx) (st : EngState) : Prop :=
  st.score = (st.answers.filter fun a => a.isCorrect).length ∧
  ∀ r ∈ savedResults st.events, SavedOk ctx r

/-- Lifting of the state invariant to a loop-iteration result. -/
def StepInv (ctx : Ctx) : StepRes → Prop
  | .cont st => StInv ctx st
  | .done st => StInv ctx st
  | .fail st _ => StInv ctx st
  | .stuck => True

/-- Lifting of the state invariant to a question-loop result. -/
def QResInv (ctx : Ctx) : QRes → Prop
  | .done st => StInv ctx st
  | .fail st _ => StInv ctx st
  | .stuck => True

/-- The validation verdict an attempt's input would receive for a
question (`none` when the input does not fit the question's prompt). -/
def attemptOutcome (q : Question) (inp : RawInput) : Option Bool :=
  (collect q inp).map fun p => p.2

/-! ### The history store (`src/resultsManager.js`) -/

/-- What reading and parsing `results.json` yields inside
`ResultsManager.loadResults`: parsed contents, a missing file (`ENOENT`),
or any other read failure. -/
inductive FsRead
  | ok (l : List SessionResult)
  | enoent
  | fsFailed (msg : String)
deriving DecidableEq

/-- The store's file-system state, with an injectable write failure. -/
structure Disk where
  read : FsRead
  writeFail : Option String
deriving DecidableEq

/-- `ResultsManager.loadResults`: a missing file yields `[]`; any other
read failure is warned about and also yields `[]`; it never throws. -/
def loadResults (d : Disk) : List SessionResult :=
  match d.read with
  | .ok l => l
  | .enoent => []
  | .fsFailed _ => []

/-- The trimming step of `ResultsManager.saveResult`:
`if (results.length > 50) results.splice(0, results.length - 50)` keeps
the last 50 entries. -/
def trimTo50 (results : List SessionResult) : List SessionResult :=
  if results.length > 50 then results.drop (results.length - 50)
  else results

/-- The `try` block of `ResultsManager.saveResult`: load, append, trim,
then write — the write can fail. -/
def saveResultTry (d : Disk) (r : SessionResult) : Except String Disk :=
  let results := trimTo50 (loadResults d ++ [r])
  match d.writeFail with
  | some msg => .error msg
  | none => .ok { d with read := .ok results }

/-- `ResultsManager.saveResult`: the catch block turns any failure into a
console warning; nothing propagates to the caller.  Returns the
resulting file-system state and the warning, if any. -/
def saveResult (d : Disk) (r : SessionResult) : Disk × Option String :=
  match saveResultTry d r with
  | .ok d' => (d', none)
  | .error msg => (d, some msg)

/-! ### Concrete sessions used as evaluation inputs -/

/-- A minimal single-choice question whose first option is correct. -/
def qSC (qid : String) : Question :=
  { id := qid, question := "?", type := .singleChoice,
    options := [.str "A", .str "B"], correctAnswers := some [.num 0],
    sampleAnswers := [], keywords := [] }

/-- Constructor tag of an event, used to state concrete traces without
forcing the session results they carry: `100 + i` for `presented i`,
`1` for the timer firing, `2` for a `saveResult` invocation, `3` for the
error report. -/
def evKind : Event → Nat
  | .presented i => 100 + i
  | .timerFired => 1
  | .saved _ => 2
  | .errorShown _ => 3

/-- Two-question timed session whose deadline callback runs while the
first question's prompt is pending. -/
def ctxC1 : Ctx :=
  { questions := [qSC "q1", qSC "q2"], timeLimit := 60000,
    allowRetry := false }

/-- The user confirms, answers both questions correctly; the timer fires
at the first await. -/
def schedC1 : Schedule :=
  { confirmStart := true,
    attempts := [[{ input := .single 0, retry := false }],
                 [{ input := .single 0, retry := false }]],
    fireAt := some 0 }

/-- Timed session whose second question has an unrecognised type; the
deadline callback runs while the first question's prompt is pending. -/
def ctxC2 : Ctx :=
  { questions := [qSC "q1",
      { id := "q2", question := "?", type := .unsupported "essay",
        options := [], correctAnswers := none, sampleAnswers := [],
        keywords := [] }],
    timeLimit := 60000, allowRetry := false }

/-- The user confirms and answers the first question; the timer fires at
the first await. -/
def schedC2 : Schedule :=
  { confirmStart := true,
    attempts := [[{ input := .single 0, retry := false }],
                 [{ input := .single 0, retry := false }]],
    fireAt := some 0 }

/-- One-question timed session whose deadline callback runs while the
question's prompt is pending. -/
def ctxC8 : Ctx :=
  { questions := [qSC "q1"], timeLimit := 60000, allowRetry := false }

/-- The user confirms and answers the question; the timer fires at the
first await. -/
def schedC8 : Schedule :=
  { confirmStart := true,
    attempts := [[{ input := .single 0, retry := false }]],
    fireAt := some 0 }

/-- Untimed one-question session, answered correctly. -/
def ctxC6 : Ctx :=
  { questions := [qSC "q1"], timeLimit := 0, allowRetry := false }

/-- The user confirms and answers correctly; no deadline. -/
def schedC6 : Schedule :=
  { confirmStart := true,
    attempts := [[{ input := .single 0, retry := false }]],
    fireAt := none }

/-- The run of the untimed one-question session. -/
def runC6 : RunResult :=
  (start ctxC6 schedC6).getD
    { events := [], outcome := .cancelled, final := initState }

/-- Untimed one-question session with retries allowed. -/
def ctxC10 : Ctx :=
  { questions := [qSC "q1"], timeLimit := 0, allowRetry := true }

/-- The user confirms, answers incorrectly, retries, then answers
correctly. -/
def schedC10 : Schedule :=
  { confirmStart := true,
    attempts := [[{ input := .single 1, retry := true },
                  { input := .single 0, retry := false }]],
    fireAt := none }

/-- The run of the retry session. -/
def runC10 : RunResult :=
  (start ctxC10 schedC10).getD
    { events := [], outcome := .cancelled, final := initState }

/-- A placeholder stored session result. -/
def rDummy : SessionResult :=
  { timestamp := 0, totalQuestions := 0, correctAnswers := 0,
    percentage := 0, duration := 0, answers := [] }

/-- A store already holding 52 results (e.g. written by other means),
with writes succeeding. -/
def dC9 : Disk := { read := .ok (List.replicate 52 rDummy), writeFail := none }

/-- A three-option single-choice question whose correct answer is given
by value ("B", index 1). -/
def qC4w : Question :=
  { id := "c4", question := "?", type := .singleChoice,
    options := [.str "A", .str "B", .str "C"],
    correctAnswers := some [.val "B"],
    sampleAnswers := [], keywords := [] }

/-- A three-option multiple-choice question whose correct answers are
the indices 0, 1, 2. -/
def qC5ex : Question :=
  { id := "c5", question := "?", type := .multipleChoice,
    options := [.str "A", .str "B", .str "C"],
    correctAnswers := some [.num 0, .num 1, .num 2],
    sampleAnswers := [], keywords := [] }

/-! ### Basic bookkeeping lemmas about the interpreter -/

/-- Splitting a trace splits its saved results. -/
theorem savedResults_append (l₁ l₂ : List Event) :
    savedResults (l₁ ++ l₂) = savedResults l₁ ++ savedResults l₂ := by
  simp [savedResults]

/-- The deadline callback does not touch the answers list. -/
theorem awaitPoint_answers (ctx : Ctx) (sched : Schedule) (st : EngState) :
    (awaitPoint ctx sched st).answers = st.answers := by
  unfold awaitPoint
  split <;> rfl

/-- The deadline callback does not touch the score. -/
theorem awaitPoint_score (ctx : Ctx) (sched : Schedule) (st : EngState) :
    (awaitPoint ctx sched st).score = st.score := by
  unfold awaitPoint
  split <;> rfl

/-- Prompt suspensions do not touch the answers list. -/
theorem promptAwaits_answers (ctx : Ctx) (sched : Schedule) (q : Question)
    (st : EngState) :
    (promptAwaits ctx sched q st).answers = st.answers := by
  unfold promptAwaits
  cases q.type <;> simp [awaitPoint_answers]

/-- Prompt suspensions do not touch the score. -/
theorem promptAwaits_score (ctx : Ctx) (sched : Schedule) (q : Question)
    (st : EngState) :
    (promptAwaits ctx sched q st).score = st.score := by
  unfold promptAwaits
  cases q.type <;> simp [awaitPoint_score]

theorem StInv_init (ctx : Ctx) : StInv ctx initState := by
  constructor
  · rfl
  · intro r hr
    simp [savedResults, initState] at hr

/-- `finishQuiz` preserves the invariant and saves a `SavedOk` result. -/
theorem StInv_finishQuiz (ctx : Ctx) (st : EngState) (h : StInv ctx st) :
    StInv ctx (finishQuiz ctx st).1 ∧ SavedOk ctx (finishQuiz ctx st).2 := by
  have hok : SavedOk ctx (finishQuiz ctx st).2 := by
    refine ⟨rfl, h.1, rfl⟩
  refine ⟨⟨h.1, ?_⟩, hok⟩
  intro r hr
  have : savedResults (finishQuiz ctx st).1.events =
      savedResults st.events ++ [(finishQuiz ctx st).2] := by
    simp [finishQuiz, savedResults]
  rw [this] at hr
  rcases List.mem_append.1 hr with h' | h'
  · exact h.2 r h'
  · rcases List.mem_singleton.1 h' with rfl
    exact hok

/-- An await point preserves the invariant (the deadline callback only
appends a `SavedOk` result). -/
theorem StInv_awaitPoint (ctx : Ctx) (sched : Schedule) (st : EngState)
    (h : StInv ctx st) : StInv ctx (awaitPoint ctx sched st) := by
  unfold awaitPoint
  split
  · have h' : StInv ctx
        { st with fired := true, events := st.events ++ [.timerFired] } := by
      refine ⟨h.1, ?_⟩
      intro r hr
      simp only [savedResults_append] at hr
      rcases List.mem_append.1 hr with h'' | h''
      · exact h.2 r h''
      · simp [savedResults] at h''
    exact (StInv_finishQuiz ctx _ h').1
  · exact h

/-- Prompt suspensions preserve the invariant. -/
theorem StInv_promptAwaits (ctx : Ctx) (sched : Schedule) (q : Question)
    (st : EngState) (h : StInv ctx st) :
    StInv ctx (promptAwaits ctx sched q st) := by
  unfold promptAwaits
  cases q.type <;>
    first
      | exact StInv_awaitPoint ctx sched _ (StInv_awaitPoint ctx sched st h)
      | exact StInv_awaitPoint ctx sched st h

/-- Pushing a record and crediting the score exactly when the record is
correct preserves the score invariant. -/
theorem filter_append_correct (l : List AnswerRecord) (ar : AnswerRecord) :
    ((l ++ [ar]).filter fun a => a.isCorrect).length =
      (l.filter fun a => a.isCorrect).length + (if ar.isCorrect then 1 else 0) := by
  rw [List.filter_append]
  cases h : ar.isCorrect <;> simp [h]

/-- The loop body preserves the invariant whatever branch it takes. -/
theorem StInv_attemptBody (ctx : Ctx) (sched : Schedule) (q : Question)
    (a : Attempt) (st1 : EngState) (ua : UAnswer) (ok : Bool)
    (h : StInv ctx st1) :
    StepInv ctx (attemptBody ctx sched q a st1 ua ok) := by
  unfold attemptBody
  have hpush2 : StInv ctx
      { st1 with answers := st1.answers ++ [mkRecord q ua false st1.clock],
                 clock := st1.clock + 1 } := by
    refine ⟨?_, h.2⟩
    simp [filter_append_correct, mkRecord, h.1]
  cases ok with
  | true =>
      simp only [if_true]
      refine ⟨?_, h.2⟩
      simp [filter_append_correct, mkRecord, h.1]
  | false =>
      simp only [Bool.false_eq_true, if_false]
      cases hA : ctx.allowRetry with
      | false => simpa [StepInv] using hpush2
      | true =>
          simp only [if_true]
          have h3 := StInv_awaitPoint ctx sched _ hpush2
          cases hr : a.retry with
          | false => simpa [StepInv] using h3
          | true =>
              simp only [if_true, StepInv]
              refine ⟨?_, h3.2⟩
              rw [awaitPoint_answers, awaitPoint_score]
              simp [List.dropLast_concat, h.1]

/-- One loop iteration preserves the invariant. -/
theorem StInv_attemptStep (ctx : Ctx) (sched : Schedule) (q : Question)
    (a : Attempt) (st : EngState) (h : StInv ctx st) :
    StepInv ctx (attemptStep ctx sched q a st) := by
  unfold attemptStep
  have hp := StInv_promptAwaits ctx sched q st h
  cases q.type with
  | unsupported name => exact h
  | singleChoice =>
      cases hc : collect q a.input with
      | none => trivial
      | some p => exact StInv_attemptBody ctx sched q a _ p.1 p.2 hp
  | multipleChoice =>
      cases hc : collect q a.input with
      | none => trivial
      | some p => exact StInv_attemptBody ctx sched q a _ p.1 p.2 hp
  | freeForm =>
      cases hc : collect q a.input with
      | none => trivial
      | some p => exact StInv_attemptBody ctx sched q a _ p.1 p.2 hp

/-- A whole `Quiz.askQuestion` call preserves the invariant. -/
theorem StInv_runQuestion (ctx : Ctx) (sched : Schedule) (q : Question) :
    ∀ (attempts : List Attempt) (st : EngState), StInv ctx st →
      QResInv ctx (runQuestion ctx sched q attempts st)
  | [], _, _ => trivial
  | a :: rest, st, h => by
      have hs := StInv_attemptStep ctx sched q a st h
      unfold runQuestion
      cases hc : attemptStep ctx sched q a st with
      | cont st' =>
          exact StInv_runQuestion ctx sched q rest st' (by rwa [hc] at hs)
      | done st' => exact (by rwa [hc] at hs : StInv ctx st')
      | fail st' m => exact (by rwa [hc] at hs : StInv ctx st')
      | stuck => trivial

/-- Appending a `presented` event preserves the invariant. -/
theorem StInv_presented (ctx : Ctx) (st : EngState) (i : Nat)
    (h : StInv ctx st) :
    StInv ctx { st with events := st.events ++ [.presented i] } := by
  refine ⟨h.1, ?_⟩
  intro r hr
  simp only [savedResults_append] at hr
  rcases List.mem_append.1 hr with h' | h'
  · exact h.2 r h'
  · simp [savedResults] at h'

/-- The question loop of `Quiz.start` preserves the invariant. -/
theorem StInv_runQuestions (ctx : Ctx) (sched : Schedule) :
    ∀ (qs : List Question) (scripts : List (List Attempt)) (i : Nat)
      (st : EngState), StInv ctx st →
      QResInv ctx (runQuestions ctx sched qs scripts i st)
  | [], _, _, _, h => h
  | q :: qs, scripts, i, st, h => by
      unfold runQuestions
      cases scripts with
      | nil => trivial
      | cons s ss =>
          have h1 := StInv_presented ctx st i h
          have h2 := StInv_runQuestion ctx sched q s _ h1
          cases hc : runQuestion ctx sched q s
              { st with events := st.events ++ [.presented i] } with
          | done st' =>
              simp only [hc]
              exact StInv_runQuestions ctx sched qs ss (i + 1) st'
                (by rwa [hc] at h2)
          | fail st' m =>
              simp only [hc]
              exact (by rwa [hc] at h2 : StInv ctx st')
          | stuck => simp only [hc, QResInv]

/-- Every completed run satisfies the invariant: the trace equals the
final state's trace, the final state is invariant, every saved result is
`SavedOk`, and a `completed` outcome's result was the one saved by the
final `finishQuiz`. -/
theorem start_inv (ctx : Ctx) (sched : Schedule) (run : RunResult)
    (h : start ctx sched = some run) :
    run.events = run.final.events ∧ StInv ctx run.final ∧
      (∀ r ∈ savedResults run.events, SavedOk ctx r) ∧
      (∀ r, run.outcome = .completed r → SavedOk ctx r) := by
  unfold start at h
  cases hcs : sched.confirmStart with
  | false =>
      rw [hcs] at h
      simp only [Bool.not_false, if_true, Option.some.injEq] at h
      subst h
      refine ⟨rfl, StInv_init ctx, ?_, ?_⟩
      · intro r hr
        simp [savedResults] at hr
      · intro r hr
        simp at hr
  | true =>
      rw [hcs] at h
      simp only [Bool.not_true, Bool.false_eq_true, if_false] at h
      have hinv := StInv_runQuestions ctx sched ctx.questions sched.attempts 0
        initState (StInv_init ctx)
      cases hr : runQuestions ctx sched ctx.questions sched.attempts 0
          initState with
      | done st =>
          rw [hr] at h hinv
          simp only [Option.some.injEq] at h
          subst h
          have hfin := StInv_finishQuiz ctx st hinv
          refine ⟨rfl, hfin.1, ?_, ?_⟩
          · intro r' hr'
            exact hfin.1.2 r' hr'
          · intro r' hr'
            simp only [Outcome.completed.injEq] at hr'
            subst hr'
            exact hfin.2
      | fail st m =>
          rw [hr] at h hinv
          simp only [Option.some.injEq] at h
          subst h
          have hst : StInv ctx
              { st with events := st.events ++ [.errorShown m] } := by
            refine ⟨hinv.1, ?_⟩
            intro r' hr'
            simp only [savedResults_append] at hr'
            rcases List.mem_append.1 hr' with h' | h'
            · exact hinv.2 r' h'
            · simp [savedResults] at h'
          refine ⟨rfl, hst, ?_, ?_⟩
          · intro r' hr'
            exact hst.2 r' hr'
          · intro r' hr'
            simp at hr'
      | stuck =>
          rw [hr] at h
          simp at h

/-! ### Shape lemmas for the retry loop -/

/-- When the input fits the prompt, one loop iteration is the loop body
run on the state after the prompt suspensions. -/
theorem attemptStep_of_collect (ctx : Ctx) (sched : Schedule) (q : Question)
    (a : Attempt) (st : EngState) (ua : UAnswer) (ok : Bool)
    (h : collect q a.input = some (ua, ok)) :
    attemptStep ctx sched q a st =
      attemptBody ctx sched q a (promptAwaits ctx sched q st) ua ok := by
  unfold attemptStep
  cases hqt : q.type with
  | unsupported name =>
      exfalso
      cases hin : a.input <;> simp [collect, hqt, hin] at h
  | singleChoice => rw [h]
  | multipleChoice => rw [h]
  | freeForm => rw [h]

/-- A correct attempt ends the loop, appending one correct record and
crediting the score. -/
theorem attemptBody_correct (ctx : Ctx) (sched : Schedule) (q : Question)
    (a : Attempt) (st1 : EngState) (ua : UAnswer) :
    attemptBody ctx sched q a st1 ua true =
      .done { st1 with
        answers := st1.answers ++ [mkRecord q ua true st1.clock],
        clock := st1.clock + 1,
        score := st1.score + 1 } := rfl

/-- An incorrect attempt without retry permission ends the loop,
the incorrect record standing. -/
theorem attemptBody_noRetry (ctx : Ctx) (sched : Schedule) (q : Question)
    (a : Attempt) (st1 : EngState) (ua : UAnswer)
    (hA : ctx.allowRetry = false) :
    attemptBody ctx sched q a st1 ua false =
      .done { st1 with
        answers := st1.answers ++ [mkRecord q ua false st1.clock],
        clock := st1.clock + 1 } := by
  simp [attemptBody, hA]

/-- An incorrect attempt with retry permitted but declined ends the loop
after the retry prompt, the incorrect record standing. -/
theorem attemptBody_decline (ctx : Ctx) (sched : Schedule) (q : Question)
    (a : Attempt) (st1 : EngState) (ua : UAnswer)
    (hA : ctx.allowRetry = true) (hr : a.retry = false) :
    attemptBody ctx sched q a st1 ua false =
      .done (awaitPoint ctx sched
        { st1 with
          answers := st1.answers ++ [mkRecord q ua false st1.clock],
          clock := st1.clock + 1 }) := by
  simp [attemptBody, hA, hr]

/-- An incorrect attempt with retry accepted pops the just-pushed record
and re-enters the loop: the answers list is exactly what it was before
the attempt. -/
theorem attemptBody_accept (ctx : Ctx) (sched : Schedule) (q : Question)
    (a : Attempt) (st1 : EngState) (ua : UAnswer)
    (hA : ctx.allowRetry = true) (hr : a.retry = true) :
    ∃ st', attemptBody ctx sched q a st1 ua false = .cont st' ∧
      st'.answers = st1.answers ∧ st'.score = st1.score := by
  refine ⟨{ awaitPoint ctx sched
      { st1 with
        answers := st1.answers ++ [mkRecord q ua false st1.clock],
        clock := st1.clock + 1 } with
      answers := (awaitPoint ctx sched
        { st1 with
          answers := st1.answers ++ [mkRecord q ua false st1.clock],
          clock := st1.clock + 1 }).answers.dropLast }, ?_, ?_, ?_⟩
  · simp [attemptBody, hA, hr]
  · show (awaitPoint ctx sched
      { st1 with
        answers := st1.answers ++ [mkRecord q ua false st1.clock],
        clock := st1.clock + 1 }).answers.dropLast = st1.answers
    rw [awaitPoint_answers]
    exact List.dropLast_concat
  · show (awaitPoint ctx sched
      { st1 with
        answers := st1.answers ++ [mkRecord q ua false st1.clock],
        clock := st1.clock + 1 }).score = st1.score
    rw [awaitPoint_score]

/-- Inversion of `attemptOutcome`: a verdict comes with a collected
answer value. -/
theorem collect_of_outcome (q : Question) (inp : RawInput) (v : Bool)
    (h : attemptOutcome q inp = some v) :
    ∃ ua, collect q inp = some (ua, v) := by
  unfold attemptOutcome at h
  cases hc : collect q inp with
  | none => rw [hc] at h; simp at h
  | some p =>
      cases p with
      | mk ua ok =>
          rw [hc] at h
          simp only [Option.map_some', Option.some.injEq] at h
          subst h
          exact ⟨ua, rfl⟩

/-- The retry loop with retries permitted, given a script whose earlier
attempts are all incorrect-and-retried and whose final attempt either is
incorrect with the retry declined or is correct: the loop terminates
normally, appends exactly one answer record for this question, and that
record is marked correct exactly when the final attempt was correct. -/
theorem runQuestion_spec (ctx : Ctx) (sched : Schedule) (q : Question) :
    ∀ (attempts : List Attempt) (st : EngState) (last : Attempt),
      ctx.allowRetry = true →
      attempts.getLast? = some last →
      (∀ a ∈ attempts.dropLast,
        attemptOutcome q a.input = some false ∧ a.retry = true) →
      ((attemptOutcome q last.input = some false ∧ last.retry = false) ∨
        attemptOutcome q last.input = some true) →
      ∃ st' ar, runQuestion ctx sched q attempts st = .done st' ∧
        st'.answers = st.answers ++ [ar] ∧
        ar.questionId = q.id ∧
        (ar.isCorrect = true ↔ attemptOutcome q last.input = some true)
  | [], _, _ => by
      intro _ hlast _ _
      simp at hlast
  | [a], st, last => by
      intro hA hlast hpre hterm
      have ha : a = last := by simpa using hlast
      subst ha
      rcases hterm with ⟨hout, hr⟩ | hout
      · rcases collect_of_outcome q a.input false hout with ⟨ua, hc⟩
        have hrun : runQuestion ctx sched q [a] st =
            .done (awaitPoint ctx sched
              { promptAwaits ctx sched q st with
                answers := (promptAwaits ctx sched q st).answers ++
                  [mkRecord q ua false (promptAwaits ctx sched q st).clock],
                clock := (promptAwaits ctx sched q st).clock + 1 }) := by
          unfold runQuestion
          rw [attemptStep_of_collect ctx sched q a st ua false hc,
            attemptBody_decline ctx sched q a _ ua hA hr]
        refine ⟨_, mkRecord q ua false (promptAwaits ctx sched q st).clock,
          hrun, ?_, rfl, ?_⟩
        · rw [awaitPoint_answers]
          show (promptAwaits ctx sched q st).answers ++ _ = _
          rw [promptAwaits_answers]
        · simp [mkRecord, hout]
      · rcases collect_of_outcome q a.input true hout with ⟨ua, hc⟩
        have hrun : runQuestion ctx sched q [a] st =
            .done { promptAwaits ctx sched q st with
              answers := (promptAwaits ctx sched q st).answers ++
                [mkRecord q ua true (promptAwaits ctx sched q st).clock],
              clock := (promptAwaits ctx sched q st).clock + 1,
              score := (promptAwaits ctx sched q st).score + 1 } := by
          unfold runQuestion
          rw [attemptStep_of_collect ctx sched q a st ua true hc,
            attemptBody_correct ctx sched q a _ ua]
        refine ⟨_, mkRecord q ua true (promptAwaits ctx sched q st).clock,
          hrun, ?_, rfl, ?_⟩
        · show (promptAwaits ctx sched q st).answers ++ _ = _
          rw [promptAwaits_answers]
        · simp [mkRecord, hout]
  | a :: b :: t, st, last => by
      intro hA hlast hpre hterm
      have hmem : a ∈ (a :: b :: t).dropLast := by
        rw [List.dropLast_cons₂]
        exact List.mem_cons_self a _
      rcases hpre a hmem with ⟨hout, hr⟩
      rcases collect_of_outcome q a.input false hout with ⟨ua, hc⟩
      rcases attemptBody_accept ctx sched q a (promptAwaits ctx sched q st) ua
        hA hr with ⟨st'', hbody, hans, _⟩
      have hstep : attemptStep ctx sched q a st = .cont st'' := by
        rw [attemptStep_of_collect ctx sched q a st ua false hc, hbody]
      have hlast' : (b :: t).getLast? = some last := by
        rwa [List.getLast?_cons_cons] at hlast
      have hpre' : ∀ x ∈ (b :: t).dropLast,
          attemptOutcome q x.input = some false ∧ x.retry = true := by
        intro x hx
        refine hpre x ?_
        rw [List.dropLast_cons₂]
        exact List.mem_cons_of_mem a hx
      rcases runQuestion_spec ctx sched q (b :: t) st'' last hA hlast' hpre'
        hterm with ⟨st', ar, hrun, hans', hid, hiff⟩
      refine ⟨st', ar, ?_, ?_, hid, hiff⟩
      · unfold runQuestion
        rw [hstep]
        exact hrun
      · rw [hans', hans, promptAwaits_answers]

/-- C4.  For a single-choice question whose sole `correctAnswers` entry
resolves to an in-range option index, the validator accepts exactly the
user index equal to that resolved index (numeric entries resolve to
themselves, string entries through `findIndex` over the options), and
rejects every other index. -/
theorem validateSingleChoice_iff_resolved (q : Question) (c : CAns) (i : Int)
    (h1 : q.correctAnswers = some [c])
    (h2 : resolveAnswer q.options c = i)
    (h3 : 0 ≤ i) (h4 : i < q.options.length) :
    ∀ ua : Int, validateSingleChoice q ua = true ↔ ua = i := by
  intro ua
  unfold validateSingleChoice questionCorrectAnswers
  rw [h1]
  cases c with
  | num n =>
      have hn : n = i := h2
      subst hn
      simp
  | val s =>
      have hs : jsFindIndex (optMatches s) q.options = i := h2
      simp [hs]

/-- C4 witness: on a concrete question with `correctAnswers := ["B"]`
over options A, B, C, choosing index 1 validates and choosing index 2
does not. -/
theorem validateSingleChoice_iff_resolved_witness :
    (validateSingleChoice qC4w 1 = true ↔ (1 : Int) = 1) ∧
    (validateSingleChoice qC4w 2 = true ↔ (2 : Int) = 1) :=
  ⟨validateSingleChoice_iff_resolved qC4w (.val "B") 1 rfl (by decide)
      (by decide) (by decide) 1,
    validateSingleChoice_iff_resolved qC4w (.val "B") 1 rfl (by decide)
      (by decide) (by decide) 2⟩

/-- C5.  For a multiple-choice question and an ascending-sorted user
selection, the validator accepts exactly when the selection equals the
ascending-sorted sequence of indices resolved from `correctAnswers`;
in particular a raw selection `[2,0,1]` against correct `[0,1,2]` is
accepted after the collection sort, while `[0,1]` is rejected. -/
theorem validateMultipleChoice_sorted_eq :
    (∀ (q : Question) (ua : List Int), sortAsc ua = ua →
      (validateMultipleChoice q ua = true ↔
        ua = sortAsc ((questionCorrectAnswers q).map (resolveAnswer q.options)))) ∧
    askMultipleChoiceSel [2, 0, 1] = some [0, 1, 2] ∧
    validateMultipleChoice qC5ex [0, 1, 2] = true ∧
    validateMultipleChoice qC5ex [0, 1] = false := by
  refine ⟨?_, by decide, by decide, by decide⟩
  intro q ua _
  unfold validateMultipleChoice
  exact beq_iff_eq

/-- C5 witness: the general equivalence applied to the concrete question
at the sorted selection `[0,1,2]`. -/
theorem validateMultipleChoice_sorted_eq_witness :
    validateMultipleChoice qC5ex [0, 1, 2] = true ↔
      [(0 : Int), 1, 2] =
        sortAsc ((questionCorrectAnswers qC5ex).map (resolveAnswer qC5ex.options)) :=
  validateMultipleChoice_sorted_eq.1 qC5ex [0, 1, 2] (by decide)

/-- C7.  Free-form correctness is decided solely by the self-assessment
response — correct and partially-correct count as correct — while the
keyword check only drives the informational hint: the correctness
value is identical across all questions and answers for a fixed
self-assessment. -/
theorem validateFreeForm_selfAssessment_only :
    (∀ (q : Question) (ua : String) (sa : SelfAssess),
      (validateFreeForm q ua sa).isCorrect =
        (sa == SelfAssess.correct || sa == SelfAssess.partiallyCorrect)) ∧
    (∀ (q q' : Question) (ua ua' : String) (sa : SelfAssess),
      (validateFreeForm q ua sa).isCorrect =
        (validateFreeForm q' ua' sa).isCorrect) ∧
    (∀ (q : Question) (ua : String) (sa : SelfAssess),
      (validateFreeForm q ua sa).hintShown = freeFormHintShown q ua) :=
  ⟨fun _ _ _ => rfl, fun _ _ _ _ _ => rfl, fun _ _ _ => rfl⟩

/-- C6.  Every session result produced by finalization — including one
produced by the deadline callback after truncation — has
`totalQuestions` equal to the configured question count and
`percentage = round(score / questions.length * 100)` computed against
that configured count; in particular a score of 1 out of 3 rounds to
33. -/
theorem finalization_percentage_formula :
    (∀ (ctx : Ctx) (sched : Schedule) (run : RunResult),
      start ctx sched = some run →
      ∀ r ∈ savedResults run.events,
        r.totalQuestions = ctx.questions.length ∧
        r.percentage =
          jsRound ((r.correctAnswers : ℚ) / (ctx.questions.length : ℚ) * 100)) ∧
    (∀ (ctx : Ctx) (sched : Schedule) (run : RunResult) (r : SessionResult),
      start ctx sched = some run → run.outcome = .completed r →
        r.totalQuestions = ctx.questions.length ∧
        r.percentage =
          jsRound ((r.correctAnswers : ℚ) / (ctx.questions.length : ℚ) * 100)) ∧
    jsRound ((1 : ℚ) / 3 * 100) = 33 := by
  refine ⟨?_, ?_, ?_⟩
  · intro ctx sched run h r hr
    have := (start_inv ctx sched run h).2.2.1 r hr
    exact ⟨this.1, this.2.2⟩
  · intro ctx sched run r h hout
    have := (start_inv ctx sched run h).2.2.2 r hout
    exact ⟨this.1, this.2.2⟩
  · unfold jsRound
    norm_num

/-- C6 witness: in the concrete untimed one-question run, the saved
result carries the configured total and the rounded percentage. -/
theorem finalization_percentage_formula_witness :
    ∃ (run : RunResult) (r : SessionResult),
      start ctxC6 schedC6 = some run ∧ r ∈ savedResults run.events ∧
      r.totalQuestions = ctxC6.questions.length ∧
      r.percentage =
        jsRound ((r.correctAnswers : ℚ) / (ctxC6.questions.length : ℚ) * 100) := by
  have hrun : start ctxC6 schedC6 = some runC6 := rfl
  obtain ⟨r, rest, hsr⟩ : ∃ r rest, savedResults runC6.events = r :: rest :=
    ⟨_, _, rfl⟩
  have hmem : r ∈ savedResults runC6.events := by
    rw [hsr]; exact List.mem_cons_self r rest
  have h := finalization_percentage_formula.1 ctxC6 schedC6 runC6 hrun r hmem
  exact ⟨runC6, r, hrun, hmem, h.1, h.2⟩

/-- C10.  In every run, the running score equals the number of correct
records in the answers list, and every session result handed to
`saveResult` (and the completed outcome's result) has `correctAnswers`
equal to the number of correct records among its `answers`. -/
theorem score_counts_correct_answers (ctx : Ctx) (sched : Schedule)
    (run : RunResult) (h : start ctx sched = some run) :
    run.final.score = (run.final.answers.filter fun a => a.isCorrect).length ∧
    (∀ r ∈ savedResults run.events,
      r.correctAnswers = (r.answers.filter fun a => a.isCorrect).length) ∧
    (∀ r, run.outcome = .completed r →
      r.correctAnswers = (r.answers.filter fun a => a.isCorrect).length) := by
  obtain ⟨-, hfin, hsaved, hcomp⟩ := start_inv ctx sched run h
  exact ⟨hfin.1, fun r hr => (hsaved r hr).2.1, fun r hr => (hcomp r hr).2.1⟩

/-- C10 witness: the concrete retry run (one wrong attempt retried into
a correct one) applied to the general theorem. -/
theorem score_counts_correct_answers_witness :
    runC10.final.score =
      (runC10.final.answers.filter fun a => a.isCorrect).length ∧
    runC10.final.score = 1 := by
  have h := score_counts_correct_answers ctxC10 schedC10 runC10 rfl
  exact ⟨h.1, by decide⟩

/-- C3.  The retry loop with retries allowed: against a script whose
earlier attempts are incorrect with retry accepted and whose final
attempt is either incorrect with retry declined or correct, the loop
appends exactly one answer record for the question — marked correct
exactly when the final attempt was correct — and every discarded
attempt is removed, so the records for this question grow by exactly
one. -/
theorem retry_single_record (ctx : Ctx) (sched : Schedule) (q : Question)
    (attempts : List Attempt) (st : EngState) (last : Attempt)
    (hA : ctx.allowRetry = true)
    (hlast : attempts.getLast? = some last)
    (hpre : ∀ a ∈ attempts.dropLast,
      attemptOutcome q a.input = some false ∧ a.retry = true)
    (hterm : (attemptOutcome q last.input = some false ∧ last.retry = false) ∨
      attemptOutcome q last.input = some true) :
    ∃ st' ar, runQuestion ctx sched q attempts st = .done st' ∧
      st'.answers = st.answers ++ [ar] ∧
      ar.questionId = q.id ∧
      (ar.isCorrect = true ↔ attemptOutcome q last.input = some true) ∧
      (st'.answers.filter fun x => x.questionId == q.id).length =
        (st.answers.filter fun x => x.questionId == q.id).length + 1 := by
  obtain ⟨st', ar, hrun, hans, hid, hiff⟩ :=
    runQuestion_spec ctx sched q attempts st last hA hlast hpre hterm
  refine ⟨st', ar, hrun, hans, hid, hiff, ?_⟩
  rw [hans, List.filter_append]
  simp [hid]

/-- C3 witness: the concrete two-attempt script (incorrect, retry
accepted, then correct) on a fresh state yields exactly one record,
marked correct. -/
theorem retry_single_record_witness :
    ∃ st' ar,
      runQuestion ctxC10 schedC10 (qSC "q1")
        [{ input := .single 1, retry := true },
         { input := .single 0, retry := false }] initState = .done st' ∧
      st'.answers = initState.answers ++ [ar] ∧
      ar.questionId = (qSC "q1").id ∧
      (ar.isCorrect = true ↔
        attemptOutcome (qSC "q1") (.single 0) = some true) ∧
      (st'.answers.filter fun x => x.questionId == (qSC "q1").id).length =
        (initState.answers.filter fun x => x.questionId == (qSC "q1").id).length
          + 1 :=
  retry_single_record ctxC10 schedC10 (qSC "q1")
    [{ input := .single 1, retry := true },
     { input := .single 0, retry := false }] initState
    { input := .single 0, retry := false }
    rfl (by decide) (by decide) (Or.inr (by decide))

/-- C1.  Contrary to the specified force-finish, the deadline callback
does not stop the question loop: in the concrete timed two-question run
whose timer fires during the first question's prompt, finalization runs
immediately (the saved snapshot has 0 of 2 answers, witnessing the
truncated `answers.length < totalQuestions` with the configured total),
but the second question is still presented afterwards (`presented 1`
after `timerFired` in the trace) and finalization runs a second time. -/
theorem timer_fires_but_iteration_continues :
    ((start ctxC1 schedC1).map fun run => run.events.map evKind) =
      some [100, 1, 2, 101, 2] ∧
    ((start ctxC1 schedC1).map fun run =>
      (savedResults run.events).map fun r =>
        (r.answers.length, r.totalQuestions)) =
      some [(0, 2), (2, 2)] := by
  constructor
  · decide
  · decide

/-- C2.  In the concrete timed run whose timer fires during the first
question and whose second question has an unsupported type, the session
does abort with the error surfaced and without a final finalization —
but a session result had already been persisted by the deadline
callback (`countSaved = 1`), contradicting the claim that a failing
session persists no result. -/
theorem abort_after_timer_already_persisted :
    ((start ctxC2 schedC2).map fun run => run.events.map evKind) =
      some [100, 1, 2, 101, 3] ∧
    ((start ctxC2 schedC2).map fun run => countSaved run.events) = some 1 ∧
    ((start ctxC2 schedC2).map fun run =>
      match run.outcome with
      | .errored m => some m
      | _ => none) = some (some "Unsupported question type: essay") := by
  refine ⟨by decide, by decide, by decide⟩

/-- C8.  In the concrete timed one-question run whose timer fires during
the question's prompt, `saveResult` is invoked twice — once by the
deadline callback's finalization and once by the finalization after the
loop — contradicting the at-most-once claim. -/
theorem saveResult_invoked_twice_on_timeout :
    ((start ctxC8 schedC8).map fun run => run.events.map evKind) =
      some [100, 1, 2, 2] ∧
    ((start ctxC8 schedC8).map fun run => countSaved run.events) = some 2 := by
  refine ⟨by decide, by decide⟩

/-- C9.  The history store's `saveResult`: appended results are trimmed
to the 50 most recent (oldest evicted first, insertion order preserved),
the persisted list never exceeds 50 entries after a successful write, a
failing write leaves the store untouched and returns a warning rather
than raising, and a failing read loads as the empty history. -/
theorem saveResult_bounded_never_raises (d : Disk) (r : SessionResult) :
    (trimTo50 (loadResults d ++ [r])).length ≤ 50 ∧
    ((loadResults d ++ [r]).length > 50 →
      trimTo50 (loadResults d ++ [r]) =
        (loadResults d ++ [r]).drop ((loadResults d ++ [r]).length - 50) ∧
      (trimTo50 (loadResults d ++ [r])).length = 50) ∧
    (d.writeFail = none →
      saveResult d r =
        ({ d with read := .ok (trimTo50 (loadResults d ++ [r])) }, none)) ∧
    (∀ msg, d.writeFail = some msg → saveResult d r = (d, some msg)) ∧
    (∀ msg, d.read = .fsFailed msg → loadResults d = []) := by
  refine ⟨?_, ?_, ?_, ?_, ?_⟩
  · unfold trimTo50
    split
    · rw [List.length_drop]
      omega
    · omega
  · intro hgt
    unfold trimTo50
    rw [if_pos hgt]
    refine ⟨rfl, ?_⟩
    rw [List.length_drop]
    omega
  · intro hw
    unfold saveResult saveResultTry
    rw [hw]
  · intro msg hw
    unfold saveResult saveResultTry
    rw [hw]
  · intro msg hw
    unfold loadResults
    rw [hw]

/-- C9 witness: saving onto a store already holding 52 results succeeds,
trims to the 50 most recent, and returns no warning. -/
theorem saveResult_bounded_never_raises_witness :
    (trimTo50 (loadResults dC9 ++ [rDummy])).length ≤ 50 ∧
    saveResult dC9 rDummy =
      ({ dC9 with read := .ok (trimTo50 (loadResults dC9 ++ [rDummy])) },
        none) :=
  ⟨(saveResult_bounded_never_raises dC9 rDummy).1,
    (saveResult_bounded_never_raises dC9 rDummy).2.2.1 rfl⟩
